import Mathlib

set_option autoImplicit false

namespace Velox

/-- JSON values as stored by velox.db (`JSONDataTypes` in src/types.ts:
string, number, boolean, null, arrays and nested objects), extended with
`undef` for the JavaScript `undefined` produced by reading an absent
object property. Numbers are modelled as integers: every number the
repository's data model and examples exercise is integral. -/
inductive Value where
  | str (s : String)
  | num (n : Int)
  | bool (b : Bool)
  | null
  | undef
  | arr (vs : List Value)
  | obj (fs : List (String × Value))

/-- A record is a JavaScript object: an ordered association list from field
names to values; JS objects never hold a key twice, and all operations
below preserve that. -/
abbrev Record := List (String × Value)

/-- A table is an ordered sequence of records (insertion order). -/
abbrev Table := List Record

/-- The whole document: ordered mapping from table name to table. -/
abbrev Document := List (String × Table)

/-- JavaScript property read `item[key]`: the value at the key, or
`undefined` when the key is absent. -/
def jsGet (item : Record) (key : String) : Value :=
  match item with
  | [] => .undef
  | (k, v) :: rest => if k = key then v else jsGet rest key

/-- JavaScript property write `item[key] = v`: overwrites in place when the
key exists (its position is kept), otherwise appends the key at the end —
exactly the JS object key-ordering rule. -/
def jsSet (item : Record) (key : String) (v : Value) : Record :=
  match item with
  | [] => [(key, v)]
  | (k, w) :: rest => if k = key then (k, v) :: rest else (k, w) :: jsSet rest key v

/-- JavaScript `table in json` membership test on the document. -/
def docHas (doc : Document) (table : String) : Bool :=
  match doc with
  | [] => false
  | (k, _) :: rest => if k = table then true else docHas rest table

/-- Document property read `json[table]` (the empty table stands for the
absent/undefined case, which callers only reach after a `docHas` check). -/
def docGet (doc : Document) (table : String) : Table :=
  match doc with
  | [] => []
  | (k, t) :: rest => if k = table then t else docGet rest table

/-- Document property write `json[table] = t`, with JS key-ordering. -/
def docSet (doc : Document) (table : String) (t : Table) : Document :=
  match doc with
  | [] => [(table, t)]
  | (k, u) :: rest => if k = table then (k, t) :: rest else (k, u) :: docSet rest table t

/-- One entry of a `where` object: either a callable predicate on the
field's value, or any non-callable value (the code tolerates those). -/
inductive Cond where
  | func (p : Value → Bool)
  | nonFunc (v : Value)

/-- A `where` clause: ordered mapping field name to condition, as iterated
by `Object.entries(where)`. -/
abbrev Where := List (String × Cond)

/-- One step of the filter callback in `Client.find` (src/unnamed/part_000,
lines 116-122): a callable condition is applied to `item[key]`, anything
else passes vacuously. -/
def condHolds (item : Record) (entry : String × Cond) : Bool :=
  match entry.2 with
  | .func p => p (jsGet item entry.1)
  | .nonFunc _ => true

/-- The record-matching test shared by find, update, delete and
deleteFirst: `Object.entries(where).every(...)`. -/
def matchesWhere (w : Where) (item : Record) : Bool :=
  w.all (condHolds item)

/-- Numeric coercion used by JS relational comparison for the primitive
values the store holds: numbers are themselves, booleans coerce to 0/1,
null to 0; strings, undefined, arrays and objects are not coerced here
(string-to-number coercion of numeric strings is not modelled; no claim
or repository example compares a string with a number). -/
def toNumV : Value → Option Int
  | .num n => some n
  | .bool b => some (if b then 1 else 0)
  | .null => some 0
  | _ => none

/-- JS `a < b` on stored values: lexicographic for two strings, numeric
after coercion otherwise; comparisons involving `undefined` (or other
non-coercible values) are false, as in JS. -/
def jsLtV (a b : Value) : Bool :=
  match a, b with
  | .str x, .str y => x < y
  | _, _ =>
    match toNumV a, toNumV b with
    | some x, some y => x < y
    | _, _ => false

/-- JS `a > b`, which holds exactly when `b < a` for these values. -/
def jsGtV (a b : Value) : Bool := jsLtV b a

/-- The sort comparator of `processQuery` (src/unnamed/part_000, lines
9-16): walk the sort mapping's fields in specification order; the first
field where the records differ decides (direction 1 natural, anything
else inverted); equal fields fall through to the next; exhausted spec
gives 0. -/
def sortCmp (spec : List (String × Int)) (a b : Record) : Int :=
  match spec with
  | [] => 0
  | (key, dir) :: rest =>
    if jsGtV (jsGet a key) (jsGet b key) then (if dir = 1 then 1 else -1)
    else if jsLtV (jsGet a key) (jsGet b key) then (if dir = 1 then -1 else 1)
    else sortCmp rest a b

/-- Insert `x` into an already-sorted list, before the first element it
need not follow — the insertion step of a stable sort. -/
def insertBefore (cmp : Record → Record → Int) (x : Record) : List Record → List Record
  | [] => [x]
  | y :: ys => if cmp x y ≤ 0 then x :: y :: ys else y :: insertBefore cmp x ys

/-- JavaScript `Array.prototype.sort(cmp)`: stable (ES2019) and ordered by
the comparator; modelled as a stable insertion sort, which agrees with
any stable sort on the consistent comparators that arise here. -/
def stableSort (cmp : Record → Record → Int) (l : List Record) : List Record :=
  l.foldr (insertBefore cmp) []

/-- JavaScript `arr.slice(start)`: a negative start counts from the end. -/
def jsSliceFrom (l : List Record) (start : Int) : List Record :=
  if start < 0 then l.drop ((l.length + start).toNat)
  else l.drop start.toNat

/-- JavaScript `arr.slice(0, stop)`: a negative stop counts from the end. -/
def jsSliceTake (l : List Record) (stop : Int) : List Record :=
  if stop < 0 then l.take ((l.length + stop).toNat)
  else l.take stop.toNat

/-- Query options (`QueryOptions` in src/types.ts): optional sort mapping
in specification order, optional limit, optional skip, optional
projection list. -/
structure QueryOptions where
  sort : Option (List (String × Int))
  limit : Option Int
  skip : Option Int
  projection : Option (List String)

/-- Stage 1 of `processQuery`: `if (options.sort) result.sort(...)`. A
present sort object is always truthy (even when empty). -/
def sortStage (o : Option (List (String × Int))) (data : List Record) : List Record :=
  match o with
  | some s => stableSort (sortCmp s) data
  | none => data

/-- Stage 2: `if (options.skip) result = result.slice(options.skip)` — the
guard is JS truthiness, so a skip of 0 leaves the data untouched. -/
def skipStage (o : Option Int) (data : List Record) : List Record :=
  match o with
  | some n => if n = 0 then data else jsSliceFrom data n
  | none => data

/-- Stage 3: `if (options.limit) result = result.slice(0, options.limit)`
— again truthiness, so a limit of 0 keeps everything. -/
def limitStage (o : Option Int) (data : List Record) : List Record :=
  match o with
  | some n => if n = 0 then data else jsSliceTake data n
  | none => data

/-- The projection loop body: build a fresh object holding `item[key]` for
each projected key, in projection order. -/
def projectRecord (keys : List String) (item : Record) : Record :=
  keys.foldl (fun acc k => jsSet acc k (jsGet item k)) []

/-- Stage 4: `if (options.projection) result = result.map(...)`. -/
def projectionStage (o : Option (List String)) (data : List Record) : List Record :=
  match o with
  | some keys => data.map (projectRecord keys)
  | none => data

/-- The query pipeline `processQuery` (src/unnamed/part_000, lines 5-40):
sort, then skip, then limit, then projection, sequentially. -/
def processQuery (data : List Record) (o : QueryOptions) : List Record :=
  let r1 := sortStage o.sort data
  let r2 := skipStage o.skip r1
  let r3 := limitStage o.limit r2
  projectionStage o.projection r3

/-- The object-literal-with-spread `{ "_id": fresh, ...each }` of
`Client.insert`: start from the base object and replay each entry of
`each` with a JS property write. A key already present (such as a
caller-supplied `_id`) overwrites the base value in place. -/
def spreadInto (base : Record) (each : Record) : Record :=
  each.foldl (fun acc kv => jsSet acc kv.1 kv.2) base

/-- The forEach body of `Client.update`:
`Object.entries(updates).forEach(([key, value]) => item[key] = value)`. -/
def applyUpdates (updates : List (String × Value)) (item : Record) : Record :=
  updates.foldl (fun acc kv => jsSet acc kv.1 kv.2) item

/-- `Client.insert` of the versioned model (src/unnamed/part_000, lines
67-91): requires the table to exist, builds each stored record as
`{ "_id": uuidv6(), ...each }` (the opaque generator is passed in as
`fresh`, one value per input index), appends in call order, writes back
and returns the full post-insert table. On error the method throws
before any write, so the document is untouched. -/
def insert (doc : Document) (table : String) (data : List Record) (fresh : Nat → String) :
    Except String (Document × List Record) :=
  if docHas doc table = false then .error "Table not found"
  else
    let columns := docGet doc table
    let final := data.enum.map (fun ie => spreadInto [("_id", Value.str (fresh ie.1))] ie.2)
    let newTable := columns ++ final
    .ok (docSet doc table newTable, newTable)

/-- `Client.find` of the versioned model (src/unnamed/part_000, lines
102-130): requires the table to exist, returns `[]` for an empty table,
otherwise filters by the `where` conjunction and applies `processQuery`
exactly when query options were supplied. -/
def find (doc : Document) (table : String) (w : Where) (query : Option QueryOptions) :
    Except String (List Record) :=
  if docHas doc table = false then .error "Table not found"
  else
    let columns := docGet doc table
    if columns.length = 0 then .ok []
    else
      let filtered := columns.filter (matchesWhere w)
      match query with
      | some q => .ok (processQuery filtered q)
      | none => .ok filtered

/-- `Client.findFirst` (src/unnamed/part_000, lines 141-149): first element
of `find`'s result, or a not-found indication. -/
def findFirst (doc : Document) (table : String) (w : Where) (query : Option QueryOptions) :
    Except String (Option Record) :=
  match find doc table w query with
  | .error e => .error e
  | .ok found => if found.length = 0 then .ok none else .ok found.head?

/-- `Client.count` (src/unnamed/part_000, lines 322-326): length of
`find`'s result. -/
def count (doc : Document) (table : String) (w : Where) (query : Option QueryOptions) :
    Except String Nat :=
  match find doc table w query with
  | .error e => .error e
  | .ok found => .ok found.length

/-- `Client.update` of the versioned model (src/unnamed/part_000, lines
233-265): requires the table to exist, then merges the update entries
into every record matching `where` (in place, via the forEach above),
writes back and returns the full table. -/
def update (doc : Document) (table : String) (w : Where) (updates : List (String × Value)) :
    Except String (Document × List Record) :=
  if docHas doc table = false then .error "Table not found"
  else
    let columns := docGet doc table
    let newColumns :=
      columns.map (fun item => if matchesWhere w item then applyUpdates updates item else item)
    .ok (docSet doc table newColumns, newColumns)

/-- `Client.delete` of the versioned model (src/unnamed/part_000, lines
159-185): requires the table to exist, keeps exactly the non-matching
records, writes back and returns `columns.length - newColumns.length`. -/
def delete (doc : Document) (table : String) (w : Where) :
    Except String (Document × Nat) :=
  if docHas doc table = false then .error "Table not found"
  else
    let columns := docGet doc table
    let newColumns := columns.filter (fun item => !(matchesWhere w item))
    .ok (docSet doc table newColumns, columns.length - newColumns.length)

/-- Remove the first element satisfying `p`, leaving everything else in
place — the effect of `columns.splice(columns.findIndex(p), 1)` when
`findIndex` succeeds. -/
def removeFirst (p : Record → Bool) : List Record → List Record
  | [] => []
  | x :: xs => if p x then xs else x :: removeFirst p xs

/-- `Client.deleteFirst` of the versioned model (src/unnamed/part_000,
lines 195-222): requires the table to exist; when `findIndex` locates a
match (equivalently, some record matches) it splices that one record
out, writes back and returns 1; otherwise nothing is written and 0 is
returned. -/
def deleteFirst (doc : Document) (table : String) (w : Where) :
    Except String (Document × Nat) :=
  if docHas doc table = false then .error "Table not found"
  else
    let columns := docGet doc table
    if columns.any (matchesWhere w) then
      .ok (docSet doc table (removeFirst (matchesWhere w) columns), 1)
    else .ok (doc, 0)

/-- The observable state of `BaseClient` (src/src/core/BaseClient.ts): the
in-memory mirror (the `cache` Map, as an ordered document) and the
parsed content of the JSON file on disk. -/
structure CacheState where
  mirror : Document
  disk : Document

/-- `BaseClient.write(data, updateCache)` (BaseClient.ts lines 46-66): with
caching enabled and `updateCache` true (the default used by every
mutation method) the mirror is replaced by `data` and the file is not
touched; otherwise the file is overwritten with the serialized data
(an empty document serializes as an empty object — the same document). -/
def write (cacheEnabled updateCache : Bool) (data : Document) (st : CacheState) : CacheState :=
  if cacheEnabled && updateCache then ⟨data, st.disk⟩
  else if data.length = 0 then ⟨st.mirror, []⟩
  else ⟨st.mirror, data⟩

/-- `BaseClient.read(json)` (BaseClient.ts lines 73-99): with the `json`
flag the file is parsed directly; otherwise, with caching enabled, the
mirror is returned without touching disk; with caching disabled the
file is parsed. -/
def read (cacheEnabled jsonFlag : Bool) (st : CacheState) : Document :=
  if jsonFlag then st.disk
  else if cacheEnabled then st.mirror
  else st.disk

/-- One tick of the periodic flush interval installed by the constructor
(BaseClient.ts lines 22-36): if the mirror is empty, do nothing;
otherwise snapshot the entire mirror and pass it to
`write(obj, false)`, which serializes it to disk. -/
def flushTick (st : CacheState) : CacheState :=
  if st.mirror.length = 0 then st
  else write true false st.mirror st

/-- The three-record table of the spec's pipeline-ordering example:
records `[{a:3},{a:1},{a:2}]` in table `t`. -/
def pipelineDoc : Document :=
  [("t", [[("a", Value.num 3)], [("a", Value.num 1)], [("a", Value.num 2)]])]

/-- A small two-user table used to exercise the mutation operations. -/
def usersDoc : Document :=
  [("users",
    [[("_id", Value.str "u1"), ("name", Value.str "Tom"), ("age", Value.num 19)],
     [("_id", Value.str "u2"), ("name", Value.str "Alice"), ("age", Value.num 23)]])]

/-- The where clause "age is strictly above 20". -/
def whereOver20 : Where :=
  [("age", Cond.func (fun v => jsLtV (Value.num 20) v))]

theorem jsGet_jsSet_self (r : Record) (k : String) (v : Value) :
    jsGet (jsSet r k v) k = v := by
  induction r with
  | nil => simp [jsGet, jsSet]
  | cons p rest ih =>
    obtain ⟨k', v'⟩ := p
    by_cases h : k' = k
    · simp [jsGet, jsSet, h]
    · simp [jsGet, jsSet, h, ih]

theorem jsGet_jsSet_ne (r : Record) (k k' : String) (v : Value) (h : k' ≠ k) :
    jsGet (jsSet r k v) k' = jsGet r k' := by
  have hne : k ≠ k' := fun hh => h hh.symm
  induction r with
  | nil => simp [jsGet, jsSet, hne]
  | cons p rest ih =>
    obtain ⟨k0, v0⟩ := p
    by_cases h0 : k0 = k
    · subst h0
      simp [jsGet, jsSet, hne]
    · simp [jsGet, jsSet, h0, ih]

theorem jsSet_eq_append (r : Record) (k : String) (v : Value)
    (h : ∀ p ∈ r, p.1 ≠ k) : jsSet r k v = r ++ [(k, v)] := by
  induction r with
  | nil => simp [jsSet]
  | cons p rest ih =>
    obtain ⟨k0, v0⟩ := p
    have hk0 : k0 ≠ k := h (k0, v0) (by simp)
    simp only [jsSet, if_neg hk0, List.cons_append, List.cons.injEq, true_and]
    exact ih (fun q hq => h q (by simp [hq]))

theorem jsGet_eq_undef_of_keys_ne (r : Record) (k : String)
    (h : ∀ p ∈ r, p.1 ≠ k) : jsGet r k = Value.undef := by
  induction r with
  | nil => rfl
  | cons p rest ih =>
    obtain ⟨k0, v0⟩ := p
    have hk0 : k0 ≠ k := h (k0, v0) (by simp)
    simp only [jsGet, if_neg hk0]
    exact ih (fun q hq => h q (by simp [hq]))

theorem jsGet_applyUpdates_of_ne (updates : List (String × Value)) (item : Record)
    (k : String) (h : ∀ p ∈ updates, p.1 ≠ k) :
    jsGet (applyUpdates updates item) k = jsGet item k := by
  induction updates generalizing item with
  | nil => rfl
  | cons p rest ih =>
    obtain ⟨k0, v0⟩ := p
    have hk0 : k0 ≠ k := h (k0, v0) (by simp)
    have step : applyUpdates ((k0, v0) :: rest) item = applyUpdates rest (jsSet item k0 v0) := rfl
    rw [step, ih (jsSet item k0 v0) (fun q hq => h q (by simp [hq])),
      jsGet_jsSet_ne item k0 k v0 (fun hh => hk0 hh.symm)]

theorem matchesWhere_jsSet_of_ne (w : Where) (item : Record) (k : String) (v : Value)
    (h : ∀ e ∈ w, e.1 ≠ k) :
    matchesWhere w (jsSet item k v) = matchesWhere w item := by
  induction w with
  | nil => rfl
  | cons e rest ih =>
    obtain ⟨k0, c⟩ := e
    have hk0 : k0 ≠ k := h (k0, c) (by simp)
    have hrest := ih (fun q hq => h q (by simp [hq]))
    cases c with
    | func p =>
      simp only [matchesWhere, List.all_cons] at hrest ⊢
      rw [hrest]
      simp only [condHolds]
      rw [jsGet_jsSet_ne item k k0 v hk0]
    | nonFunc v0 =>
      simp only [matchesWhere, List.all_cons] at hrest ⊢
      rw [hrest]
      simp [condHolds]

theorem length_filter_add_length_filter_not (p : Record → Bool) (l : List Record) :
    (l.filter p).length + (l.filter (fun x => !(p x))).length = l.length := by
  induction l with
  | nil => rfl
  | cons x xs ih =>
    cases h : p x <;> simp [List.filter_cons, h, ← ih] <;> omega

theorem removeFirst_split_of_any (p : Record → Bool) (l : List Record)
    (h : l.any p = true) :
    ∃ pre r post, l = pre ++ r :: post ∧ (∀ x ∈ pre, p x = false) ∧ p r = true
      ∧ removeFirst p l = pre ++ post := by
  induction l with
  | nil => simp at h
  | cons x xs ih =>
    cases hx : p x with
    | true =>
      exact ⟨[], x, xs, by simp, by simp, hx, by simp [removeFirst, hx]⟩
    | false =>
      have hxs : xs.any p = true := by
        simpa [List.any_cons, hx] using h
      obtain ⟨pre, r, post, hsplit, hpre, hr, hrem⟩ := ih hxs
      refine ⟨x :: pre, r, post, by simp [hsplit], ?_, hr, ?_⟩
      · intro y hy
        rcases List.mem_cons.mp hy with hy | hy
        · exact hy ▸ hx
        · exact hpre y hy
      · simp [removeFirst, hx, hrem]

theorem stableSort_sortCmp_nil (l : List Record) :
    stableSort (sortCmp []) l = l := by
  induction l with
  | nil => rfl
  | cons x xs ih =>
    have step : stableSort (sortCmp []) (x :: xs)
        = insertBefore (sortCmp []) x (stableSort (sortCmp []) xs) := rfl
    rw [step, ih]
    cases xs with
    | nil => rfl
    | cons y ys => simp [insertBefore, sortCmp]

theorem foldl_jsSet_eq_append (item : Record) (keys : List String) (acc : Record)
    (hd : ∀ k ∈ keys, ∀ p ∈ acc, p.1 ≠ k) (hn : keys.Nodup) :
    keys.foldl (fun acc k => jsSet acc k (jsGet item k)) acc
      = acc ++ keys.map (fun k => (k, jsGet item k)) := by
  induction keys generalizing acc with
  | nil => simp
  | cons k ks ih =>
    have hk : ∀ p ∈ acc, p.1 ≠ k := hd k (by simp)
    have hset : jsSet acc k (jsGet item k) = acc ++ [(k, jsGet item k)] :=
      jsSet_eq_append acc k (jsGet item k) hk
    have hnodup := List.nodup_cons.mp hn
    have hd2 : ∀ k2 ∈ ks, ∀ p ∈ acc ++ [(k, jsGet item k)], p.1 ≠ k2 := by
      intro k2 hk2 p hp
      rcases List.mem_append.mp hp with hp | hp
      · exact hd k2 (by simp [hk2]) p hp
      · have hp2 : p = (k, jsGet item k) := by simpa using hp
        subst hp2
        intro hcontra
        apply hnodup.1
        have hkk2 : k = k2 := hcontra
        rw [hkk2]
        exact hk2
    calc (k :: ks).foldl (fun acc k => jsSet acc k (jsGet item k)) acc
        = ks.foldl (fun acc k => jsSet acc k (jsGet item k)) (jsSet acc k (jsGet item k)) := rfl
      _ = (acc ++ [(k, jsGet item k)]) ++ ks.map (fun k => (k, jsGet item k)) := by
          rw [hset]
          exact ih (acc ++ [(k, jsGet item k)]) hd2 hnodup.2
      _ = acc ++ (k :: ks).map (fun k => (k, jsGet item k)) := by simp

theorem projectRecord_eq_map (keys : List String) (item : Record) (hn : keys.Nodup) :
    projectRecord keys item = keys.map (fun k => (k, jsGet item k)) := by
  have := foldl_jsSet_eq_append item keys [] (by simp) hn
  simpa [projectRecord] using this

/-- C1: the spec says `insert` strips any caller-supplied `_id` and
substitutes a fresh identifier, and the declared parameter type
`Omit<C, "_id">` together with the README ("the `_id` field cannot be
deleted or modified") shows that is the intent; but the object literal
`{ "_id": uuidv6(), ...each }` spreads the caller's record after the
fresh identifier, so a caller-supplied `_id` overwrites it. Inserting
`{_id: "evil", name: "x"}` into the empty table `users` stores the
record with `_id = "evil"`, not the generator's `"fresh-0"`. -/
theorem insert_keeps_caller_id :
    insert [("users", [])] "users"
        [[("_id", Value.str "evil"), ("name", Value.str "x")]]
        (fun n => "fresh-" ++ toString n)
      = .ok ([("users", [[("_id", Value.str "evil"), ("name", Value.str "x")]])],
             [[("_id", Value.str "evil"), ("name", Value.str "x")]])
    ∧ (fun n : Nat => "fresh-" ++ toString n) 0 = "fresh-0" :=
  ⟨rfl, rfl⟩

/-- C2: the find-family pipeline applies sort, then skip, then limit, then
projection, in that fixed order; on the spec's example table
`[{a:3},{a:1},{a:2}]` with an all-matching where, the options
`{sort:{a:1}, skip:1, limit:1}` return exactly `[{a:2}]`; and with no
query options `find` returns the matching set unmodified. -/
theorem find_pipeline_order :
    (∀ (data : List Record) (o : QueryOptions),
      processQuery data o
        = projectionStage o.projection
            (limitStage o.limit (skipStage o.skip (sortStage o.sort data))))
    ∧ (∀ (doc : Document) (table : String) (w : Where),
        find doc table w none
          = if docHas doc table = true
            then .ok ((docGet doc table).filter (matchesWhere w))
            else .error "Table not found")
    ∧ find pipelineDoc "t" [] (some ⟨some [("a", 1)], some 1, some 1, none⟩)
        = .ok [[("a", Value.num 2)]] := by
  refine ⟨fun data o => rfl, fun doc table w => ?_, by rfl⟩
  cases h : docHas doc table with
  | false => simp [find, h]
  | true =>
    cases hc : docGet doc table with
    | nil => simp [find, h, hc]
    | cons r rs => simp [find, h, hc]

/-- C3: with caching enabled, a read (the `json` flag unset, as every
operation leaves it) returns the in-memory mirror whatever the disk
holds; a mutation's write-back (with the default `updateCache = true`)
replaces the mirror and leaves the disk untouched; and the periodic
flush tick leaves the disk alone when the mirror is empty and otherwise
overwrites it with the entire current mirror, never touching the
mirror itself. -/
theorem cache_mirror_discipline :
    ∀ (m d data : Document),
      read true false ⟨m, d⟩ = m
      ∧ write true true data ⟨m, d⟩ = ⟨data, d⟩
      ∧ flushTick ⟨m, d⟩ = ⟨m, if m.length = 0 then d else m⟩ := by
  intro m d data
  refine ⟨rfl, rfl, ?_⟩
  by_cases h : m.length = 0
  · simp [flushTick, h]
  · simp [flushTick, write, h]

/-- C10: the `if (options.skip)` and `if (options.limit)` guards test JS
truthiness, so a limit of 0 skips the limit stage entirely (all records
left after sort and skip are kept) and a skip of 0 drops nothing; this
holds through processQuery and through find, findFirst and count. -/
theorem zero_limit_skip_noop :
    ∀ (doc : Document) (table : String) (w : Where) (data : List Record)
      (s : Option (List (String × Int))) (l sk : Option Int)
      (pr : Option (List String)),
      processQuery data ⟨s, some 0, sk, pr⟩ = processQuery data ⟨s, none, sk, pr⟩
      ∧ processQuery data ⟨s, l, some 0, pr⟩ = processQuery data ⟨s, l, none, pr⟩
      ∧ find doc table w (some ⟨s, some 0, sk, pr⟩)
          = find doc table w (some ⟨s, none, sk, pr⟩)
      ∧ find doc table w (some ⟨s, l, some 0, pr⟩)
          = find doc table w (some ⟨s, l, none, pr⟩)
      ∧ findFirst doc table w (some ⟨s, some 0, sk, pr⟩)
          = findFirst doc table w (some ⟨s, none, sk, pr⟩)
      ∧ findFirst doc table w (some ⟨s, l, some 0, pr⟩)
          = findFirst doc table w (some ⟨s, l, none, pr⟩)
      ∧ count doc table w (some ⟨s, some 0, sk, pr⟩)
          = count doc table w (some ⟨s, none, sk, pr⟩)
      ∧ count doc table w (some ⟨s, l, some 0, pr⟩)
          = count doc table w (some ⟨s, l, none, pr⟩) := by
  intro doc table w data s l sk pr
  have hlim : ∀ d : List Record, limitStage (some 0) d = limitStage none d := by
    intro d; simp [limitStage]
  have hskip : ∀ d : List Record, skipStage (some 0) d = skipStage none d := by
    intro d; simp [skipStage]
  have hq1 : ∀ d : List Record,
      processQuery d ⟨s, some 0, sk, pr⟩ = processQuery d ⟨s, none, sk, pr⟩ := by
    intro d; simp only [processQuery, hlim]
  have hq2 : ∀ d : List Record,
      processQuery d ⟨s, l, some 0, pr⟩ = processQuery d ⟨s, l, none, pr⟩ := by
    intro d; simp only [processQuery, hskip]
  have hf1 : find doc table w (some ⟨s, some 0, sk, pr⟩)
      = find doc table w (some ⟨s, none, sk, pr⟩) := by
    simp only [find, hq1]
  have hf2 : find doc table w (some ⟨s, l, some 0, pr⟩)
      = find doc table w (some ⟨s, l, none, pr⟩) := by
    simp only [find, hq2]
  refine ⟨hq1 data, hq2 data, hf1, hf2, ?_, ?_, ?_, ?_⟩
  · simp only [findFirst, hf1]
  · simp only [findFirst, hf2]
  · simp only [count, hf1]
  · simp only [count, hf2]

/-- C4: a record matches a where clause iff every entry whose value is a
callable predicate evaluates true on the record's current value at that
field (conjunction); a non-callable entry is vacuously satisfied; the
empty where matches every record; and a field absent from the where
clause is unconstrained (changing it cannot change the match). -/
theorem matchesWhere_conjunction :
    ∀ (w : Where) (item : Record),
      (matchesWhere w item = true ↔
        ∀ e ∈ w, ∀ p, e.2 = Cond.func p → p (jsGet item e.1) = true)
      ∧ (∀ (k : String) (v : Value), matchesWhere [(k, Cond.nonFunc v)] item = true)
      ∧ matchesWhere ([] : Where) item = true
      ∧ (∀ (k : String) (v : Value), (∀ e ∈ w, e.1 ≠ k) →
          matchesWhere w (jsSet item k v) = matchesWhere w item) := by
  intro w item
  refine ⟨?_, ?_, rfl, fun k v h => matchesWhere_jsSet_of_ne w item k v h⟩
  · rw [matchesWhere, List.all_eq_true]
    constructor
    · intro h e he p hp
      have hc := h e he
      obtain ⟨k0, c⟩ := e
      cases c with
      | func p0 =>
        have hpp : Cond.func p0 = Cond.func p := hp
        injection hpp with hpp0
        subst hpp0
        simpa [condHolds] using hc
      | nonFunc v0 =>
        have hpp : Cond.nonFunc v0 = Cond.func p := hp
        cases hpp
    · intro h e he
      obtain ⟨k0, c⟩ := e
      cases c with
      | func p0 =>
        have := h (k0, Cond.func p0) he p0 rfl
        simpa [condHolds] using this
      | nonFunc v0 => simp [condHolds]
  · intro k v
    simp [matchesWhere, condHolds]

/-- C4 witness: the conjunction rule at the concrete clause "age above 20"
and the record with age 23. -/
theorem matchesWhere_conjunction_witness :
    (matchesWhere whereOver20 [("age", Value.num 23)] = true ↔
      ∀ e ∈ whereOver20, ∀ p, e.2 = Cond.func p →
        p (jsGet [("age", Value.num 23)] e.1) = true)
    ∧ (∀ (k : String) (v : Value),
        matchesWhere [(k, Cond.nonFunc v)] [("age", Value.num 23)] = true)
    ∧ matchesWhere ([] : Where) [("age", Value.num 23)] = true
    ∧ (∀ (k : String) (v : Value), (∀ e ∈ whereOver20, e.1 ≠ k) →
        matchesWhere whereOver20 (jsSet [("age", Value.num 23)] k v)
          = matchesWhere whereOver20 [("age", Value.num 23)]) :=
  matchesWhere_conjunction whereOver20 [("age", Value.num 23)]

/-- C5: every operation of the versioned model invoked with a table name
not present in the document fails with the table-not-found error rather
than returning an empty result; the mutating operations produce no new
document (the method throws before any write-back), so the stored
document is unchanged. -/
theorem missing_table_errors :
    ∀ (doc : Document) (table : String) (w : Where) (q : Option QueryOptions)
      (data : List Record) (fresh : Nat → String) (updates : List (String × Value)),
      docHas doc table = false →
      insert doc table data fresh = .error "Table not found"
      ∧ find doc table w q = .error "Table not found"
      ∧ findFirst doc table w q = .error "Table not found"
      ∧ count doc table w q = .error "Table not found"
      ∧ update doc table w updates = .error "Table not found"
      ∧ delete doc table w = .error "Table not found"
      ∧ deleteFirst doc table w = .error "Table not found" := by
  intro doc table w q data fresh updates h
  refine ⟨?_, ?_, ?_, ?_, ?_, ?_, ?_⟩ <;>
    simp [insert, find, findFirst, count, update, delete, deleteFirst, h]

/-- C5 witness: the seven operations against the absent table `b` of a
one-table document. -/
theorem missing_table_errors_witness :
    insert [("a", [])] "b" [] (fun _ => "f") = .error "Table not found"
    ∧ find [("a", [])] "b" [] none = .error "Table not found"
    ∧ findFirst [("a", [])] "b" [] none = .error "Table not found"
    ∧ count [("a", [])] "b" [] none = .error "Table not found"
    ∧ update [("a", [])] "b" [] [] = .error "Table not found"
    ∧ delete [("a", [])] "b" [] = .error "Table not found"
    ∧ deleteFirst [("a", [])] "b" [] = .error "Table not found" :=
  missing_table_errors [("a", [])] "b" [] none [] (fun _ => "f") [] (by decide)

/-- C6 counterexample: the runtime merge loop of `update` writes every
entry of the update object into a matching record, `_id` included — the
exclusion of `_id` lives only in the TypeScript parameter type
`Partial<Omit<C, "_id">>`. Updating with `{_id: "z"}` reassigns the
record's `_id` from `"a"` to `"z"`, so the claim that `_id` always
survives `update` fails as stated. -/
theorem update_reassigns_id :
    update [("t", [[("_id", Value.str "a"), ("age", Value.num 1)]])] "t" []
        [("_id", Value.str "z")]
      = .ok ([("t", [[("_id", Value.str "z"), ("age", Value.num 1)]])],
             [[("_id", Value.str "z"), ("age", Value.num 1)]]) := rfl

/-- C6 (amended): for update objects that do not name `_id` — which is
every well-typed call, since the parameter type omits `_id` — only the
fields named in the update are changed, and only on records matching
the where clause; non-matching records are returned unchanged, fields
not named keep their values, and `_id` keeps its value. -/
theorem update_frame :
    ∀ (doc : Document) (table : String) (w : Where) (updates : List (String × Value)),
      docHas doc table = true →
      (∀ p ∈ updates, p.1 ≠ "_id") →
      update doc table w updates
        = .ok (docSet doc table ((docGet doc table).map
              (fun item => if matchesWhere w item then applyUpdates updates item else item)),
            (docGet doc table).map
              (fun item => if matchesWhere w item then applyUpdates updates item else item))
      ∧ List.Forall₂ (fun r r' =>
          (matchesWhere w r = false → r' = r)
          ∧ (∀ k, (∀ p ∈ updates, p.1 ≠ k) → jsGet r' k = jsGet r k)
          ∧ jsGet r' "_id" = jsGet r "_id")
        (docGet doc table)
        ((docGet doc table).map
          (fun item => if matchesWhere w item then applyUpdates updates item else item)) := by
  intro doc table w updates hT hid
  constructor
  · simp [update, hT]
  · rw [List.forall₂_map_right_iff, List.forall₂_same]
    intro r hr
    by_cases hm : matchesWhere w r = true
    · rw [if_pos hm]
      refine ⟨?_, ?_, ?_⟩
      · intro hfalse
        rw [hm] at hfalse
        exact Bool.noConfusion hfalse
      · intro k hk
        exact jsGet_applyUpdates_of_ne updates r k hk
      · exact jsGet_applyUpdates_of_ne updates r "_id" hid
    · rw [if_neg hm]
      exact ⟨fun _ => rfl, fun k _ => rfl, rfl⟩

/-- C6 witness: updating age to 24 on the users over 20 in the two-user
table. -/
theorem update_frame_witness :
    update usersDoc "users" whereOver20 [("age", Value.num 24)]
      = .ok (docSet usersDoc "users" ((docGet usersDoc "users").map
            (fun item => if matchesWhere whereOver20 item
              then applyUpdates [("age", Value.num 24)] item else item)),
          (docGet usersDoc "users").map
            (fun item => if matchesWhere whereOver20 item
              then applyUpdates [("age", Value.num 24)] item else item))
    ∧ List.Forall₂ (fun r r' =>
        (matchesWhere whereOver20 r = false → r' = r)
        ∧ (∀ k, (∀ p ∈ [("age", Value.num 24)], p.1 ≠ k) → jsGet r' k = jsGet r k)
        ∧ jsGet r' "_id" = jsGet r "_id")
      (docGet usersDoc "users")
      ((docGet usersDoc "users").map
        (fun item => if matchesWhere whereOver20 item
          then applyUpdates [("age", Value.num 24)] item else item)) :=
  update_frame usersDoc "users" whereOver20 [("age", Value.num 24)] (by decide) (by decide)

/-- C7: `delete` on an existing table removes exactly the records matching
the where conjunction — the new table is the non-matching records — and
returns their count; `deleteFirst` removes exactly the first matching
record in table order and returns 1, or removes nothing and returns 0
when no record matches. -/
theorem delete_cardinality :
    ∀ (doc : Document) (table : String) (w : Where),
      docHas doc table = true →
      delete doc table w
        = .ok (docSet doc table
              ((docGet doc table).filter (fun r => !(matchesWhere w r))),
            ((docGet doc table).filter (matchesWhere w)).length)
      ∧ ((docGet doc table).any (matchesWhere w) = false →
          deleteFirst doc table w = .ok (doc, 0))
      ∧ ((docGet doc table).any (matchesWhere w) = true →
          ∃ pre r post, docGet doc table = pre ++ r :: post
            ∧ (∀ x ∈ pre, matchesWhere w x = false)
            ∧ matchesWhere w r = true
            ∧ deleteFirst doc table w = .ok (docSet doc table (pre ++ post), 1)) := by
  intro doc table w hT
  refine ⟨?_, ?_, ?_⟩
  · have hlen := length_filter_add_length_filter_not (matchesWhere w) (docGet doc table)
    have hnum : (docGet doc table).length
        - ((docGet doc table).filter (fun r => !(matchesWhere w r))).length
        = ((docGet doc table).filter (matchesWhere w)).length := by omega
    simp [delete, hT, hnum]
  · intro h
    simp [deleteFirst, hT, h]
  · intro h
    obtain ⟨pre, r, post, hsplit, hpre, hr, hrem⟩ :=
      removeFirst_split_of_any (matchesWhere w) (docGet doc table) h
    exact ⟨pre, r, post, hsplit, hpre, hr, by simp [deleteFirst, hT, h, hrem]⟩

/-- C7 witness: deleting the users over 20 from the two-user table (one
record matches). -/
theorem delete_cardinality_witness :
    delete usersDoc "users" whereOver20
      = .ok (docSet usersDoc "users"
            ((docGet usersDoc "users").filter (fun r => !(matchesWhere whereOver20 r))),
          ((docGet usersDoc "users").filter (matchesWhere whereOver20)).length)
    ∧ ((docGet usersDoc "users").any (matchesWhere whereOver20) = false →
        deleteFirst usersDoc "users" whereOver20 = .ok (usersDoc, 0))
    ∧ ((docGet usersDoc "users").any (matchesWhere whereOver20) = true →
        ∃ pre r post, docGet usersDoc "users" = pre ++ r :: post
          ∧ (∀ x ∈ pre, matchesWhere whereOver20 x = false)
          ∧ matchesWhere whereOver20 r = true
          ∧ deleteFirst usersDoc "users" whereOver20
              = .ok (docSet usersDoc "users" (pre ++ post), 1)) :=
  delete_cardinality usersDoc "users" whereOver20 (by decide)

/-- C8: the comparator consults the sort mapping's fields in specification
order; on the first field where the records differ it returns the
natural direction for 1 and the inverted one otherwise, never
consulting the remaining fields (the result does not depend on `rest`);
equal fields fall through to the next; and with no sort field supplied
— either no sort object or an empty one — the original order is
preserved. -/
theorem sortCmp_first_difference :
    ∀ (key : String) (dir : Int) (rest : List (String × Int)) (a b : Record),
      (jsGtV (jsGet a key) (jsGet b key) = true →
        sortCmp ((key, dir) :: rest) a b = (if dir = 1 then 1 else -1))
      ∧ (jsGtV (jsGet a key) (jsGet b key) = false →
          jsLtV (jsGet a key) (jsGet b key) = true →
          sortCmp ((key, dir) :: rest) a b = (if dir = 1 then -1 else 1))
      ∧ (jsGtV (jsGet a key) (jsGet b key) = false →
          jsLtV (jsGet a key) (jsGet b key) = false →
          sortCmp ((key, dir) :: rest) a b = sortCmp rest a b)
      ∧ (∀ data : List Record, sortStage none data = data)
      ∧ (∀ data : List Record, sortStage (some []) data = data) := by
  intro key dir rest a b
  refine ⟨?_, ?_, ?_, fun data => rfl, fun data => stableSort_sortCmp_nil data⟩
  · intro hgt
    simp [sortCmp, hgt]
  · intro hgt hlt
    simp [sortCmp, hgt, hlt]
  · intro hgt hlt
    simp [sortCmp, hgt, hlt]

/-- C8 witness: the comparator on records with a = 2 versus a = 1, sort
spec ascending on a then descending on b. -/
theorem sortCmp_first_difference_witness :
    (jsGtV (jsGet [("a", Value.num 2)] "a") (jsGet [("a", Value.num 1)] "a") = true →
      sortCmp [("a", 1), ("b", -1)] [("a", Value.num 2)] [("a", Value.num 1)]
        = (if (1 : Int) = 1 then 1 else -1))
    ∧ (jsGtV (jsGet [("a", Value.num 2)] "a") (jsGet [("a", Value.num 1)] "a") = false →
        jsLtV (jsGet [("a", Value.num 2)] "a") (jsGet [("a", Value.num 1)] "a") = true →
        sortCmp [("a", 1), ("b", -1)] [("a", Value.num 2)] [("a", Value.num 1)]
          = (if (1 : Int) = 1 then -1 else 1))
    ∧ (jsGtV (jsGet [("a", Value.num 2)] "a") (jsGet [("a", Value.num 1)] "a") = false →
        jsLtV (jsGet [("a", Value.num 2)] "a") (jsGet [("a", Value.num 1)] "a") = false →
        sortCmp [("a", 1), ("b", -1)] [("a", Value.num 2)] [("a", Value.num 1)]
          = sortCmp [("b", -1)] [("a", Value.num 2)] [("a", Value.num 1)])
    ∧ (∀ data : List Record, sortStage none data = data)
    ∧ (∀ data : List Record, sortStage (some []) data = data) :=
  sortCmp_first_difference "a" 1 [("b", -1)] [("a", Value.num 2)] [("a", Value.num 1)]

/-- C9: projecting a duplicate-free key list builds a fresh record holding
exactly the named fields in projection order — its key list is the
projection list, any unlisted key (in particular `_id`) reads back as
undefined — and the spec's example holds: projecting `["name"]` on
`{_id:"x", name:"Tom", age:19}` yields exactly `{name:"Tom"}`. -/
theorem projection_exact_fields :
    ∀ (keys : List String) (item : Record), keys.Nodup →
      projectRecord keys item = keys.map (fun k => (k, jsGet item k))
      ∧ (projectRecord keys item).map Prod.fst = keys
      ∧ (∀ k, k ∉ keys → jsGet (projectRecord keys item) k = Value.undef)
      ∧ (∀ data : List Record,
          projectionStage (some keys) data = data.map (projectRecord keys))
      ∧ projectRecord ["name"]
          [("_id", Value.str "x"), ("name", Value.str "Tom"), ("age", Value.num 19)]
        = [("name", Value.str "Tom")] := by
  intro keys item hn
  have hmap := projectRecord_eq_map keys item hn
  refine ⟨hmap, ?_, ?_, fun data => rfl, by rfl⟩
  · rw [hmap, List.map_map]
    have hcomp : (Prod.fst ∘ fun k => (k, jsGet item k)) = fun k : String => k := rfl
    rw [hcomp]
    exact List.map_id keys
  · intro k hk
    rw [hmap]
    apply jsGet_eq_undef_of_keys_ne
    intro p hp
    obtain ⟨k0, hk0, hpk⟩ := List.mem_map.mp hp
    rw [← hpk]
    intro hc
    have hkk : k0 = k := hc
    exact hk (hkk ▸ hk0)

/-- C9 witness: the projection list `["name"]` on the spec's example
record. -/
theorem projection_exact_fields_witness :
    projectRecord ["name"]
        [("_id", Value.str "x"), ("name", Value.str "Tom"), ("age", Value.num 19)]
      = ["name"].map (fun k =>
          (k, jsGet [("_id", Value.str "x"), ("name", Value.str "Tom"),
            ("age", Value.num 19)] k))
    ∧ (projectRecord ["name"]
        [("_id", Value.str "x"), ("name", Value.str "Tom"), ("age", Value.num 19)]).map
          Prod.fst = ["name"]
    ∧ (∀ k, k ∉ ["name"] →
        jsGet (projectRecord ["name"]
          [("_id", Value.str "x"), ("name", Value.str "Tom"), ("age", Value.num 19)]) k
        = Value.undef)
    ∧ (∀ data : List Record,
        projectionStage (some ["name"]) data = data.map (projectRecord ["name"]))
    ∧ projectRecord ["name"]
        [("_id", Value.str "x"), ("name", Value.str "Tom"), ("age", Value.num 19)]
      = [("name", Value.str "Tom")] :=
  projection_exact_fields ["name"]
    [("_id", Value.str "x"), ("name", Value.str "Tom"), ("age", Value.num 19)] (by decide)

end Velox
